import Mathlib

set_option maxHeartbeats 1000000
set_option maxRecDepth 4000

/-!
Shallow embedding of the version-resolution and completion-ranking engine of
the `vscode-npm-package-dropdown` extension.

JavaScript strings are modelled as Lean `String` (one `Char` per UTF-16 unit;
all inputs of interest are BMP text, where the two coincide).  JavaScript
numbers produced by `parseInt` on digit runs are modelled as exact `Nat`/`Int`.
-/

/-- The range-operator characters `^ ~ > = <` stripped by the classifier's
version parser (the character class of the regex `/[\^~>=<]/g`). -/
def isRangeChar (c : Char) : Bool :=
  c = '^' || c = '~' || c = '>' || c = '=' || c = '<'

/-- Numeric value of a decimal digit character. -/
def digitVal (c : Char) : Nat := c.toNat - 48

/-- `parseInt(digits, 10)` on a non-empty run of decimal digits. -/
def parseNatDigits (cs : List Char) : Nat :=
  cs.foldl (fun a c => a * 10 + digitVal c) 0

/-- The `{ major, minor, patch }` record returned by
`PackageJsonProvider.parseVersion`. -/
structure SemverTriple where
  major : Nat
  minor : Nat
  patch : Nat
deriving DecidableEq, Repr

/-- The anchored match `^(\d+)\.(\d+)\.(\d+)` shared by both of the source's
version parsers (each `\d+` greedy, i.e. a maximal digit run).  Returns the
three captured numbers and the unconsumed remainder of the input. -/
def matchTriple (cs : List Char) : Option (Nat × Nat × Nat × List Char) :=
  let d1 := cs.takeWhile Char.isDigit
  let r1 := cs.dropWhile Char.isDigit
  if d1.isEmpty then none else
  match r1 with
  | '.' :: r2 =>
    let d2 := r2.takeWhile Char.isDigit
    let r3 := r2.dropWhile Char.isDigit
    if d2.isEmpty then none else
    match r3 with
    | '.' :: r4 =>
      let d3 := r4.takeWhile Char.isDigit
      let r5 := r4.dropWhile Char.isDigit
      if d3.isEmpty then none
      else some (parseNatDigits d1, parseNatDigits d2, parseNatDigits d3, r5)
    | _ => none
  | _ => none

/-- The `VersionChangeType` enum of `packageJsonProvider.ts`. -/
inductive VersionChangeType where
  | vnone
  | patch
  | minor
  | major
deriving DecidableEq, Repr

namespace PackageJsonProvider

/-- `parseVersion` of `PackageJsonProvider`: strip every occurrence of
`^ ~ > = <` (`version.replace(/[\^~>=<]/g, '')`), then match the anchored
regex `^(\d+)\.(\d+)\.(\d+)` against the remainder (each `\d+` greedy,
i.e. a maximal digit run). -/
def parseVersion (version : String) : Option SemverTriple :=
  match matchTriple (version.data.filter (fun c => !isRangeChar c)) with
  | some (m, n, p, _) => some ⟨m, n, p⟩
  | none => none

/-- `getVersionChangeType` of `PackageJsonProvider`, with the guards in the
source's order and orientation. -/
def getVersionChangeType (current latest : String) : VersionChangeType :=
  match parseVersion current, parseVersion latest with
  | some c, some l =>
    if c.major = l.major ∧ c.minor = l.minor ∧ c.patch = l.patch then
      VersionChangeType.vnone
    else if l.major > c.major then
      VersionChangeType.major
    else if l.major = c.major ∧ l.minor > c.minor then
      VersionChangeType.minor
    else if l.major = c.major ∧ l.minor = c.minor ∧ l.patch > c.patch then
      VersionChangeType.patch
    else
      VersionChangeType.vnone
  | _, _ => VersionChangeType.vnone

/-- Modelled from the spec's classification sentence: equal triple is `None`;
`latest.major > current.major` is `Major`; equal majors with
`latest.minor > current.minor` is `Minor`; equal major+minor with
`latest.patch > current.patch` is `Patch`; every other ordering (including
latest numerically behind current) is `None`; either side unparseable is
`None`. -/
def classifySpec (current latest : String) : VersionChangeType :=
  match parseVersion current, parseVersion latest with
  | some c, some l =>
    if l.major = c.major ∧ l.minor = c.minor ∧ l.patch = c.patch then
      VersionChangeType.vnone
    else if c.major < l.major then
      VersionChangeType.major
    else if c.major = l.major ∧ c.minor < l.minor then
      VersionChangeType.minor
    else if c.major = l.major ∧ c.minor = l.minor ∧ c.patch < l.patch then
      VersionChangeType.patch
    else
      VersionChangeType.vnone
  | _, _ => VersionChangeType.vnone

end PackageJsonProvider

/-- C1: `getVersionChangeType` classifies exactly as the spec states — equal
triples give `None`, a strictly larger latest major gives `Major`, equal
majors with a larger latest minor give `Minor`, equal major+minor with a
larger latest patch give `Patch`, every other case (latest behind current,
or either side unparseable) gives `None` — including the spec's five
concrete classification examples. -/
theorem getVersionChangeType_matches_spec :
    (∀ current latest : String,
      PackageJsonProvider.getVersionChangeType current latest =
        PackageJsonProvider.classifySpec current latest)
    ∧ PackageJsonProvider.getVersionChangeType "1.2.3" "1.2.3" = VersionChangeType.vnone
    ∧ PackageJsonProvider.getVersionChangeType "1.2.3" "1.3.0" = VersionChangeType.minor
    ∧ PackageJsonProvider.getVersionChangeType "1.2.3" "2.0.0" = VersionChangeType.major
    ∧ PackageJsonProvider.getVersionChangeType "1.2.3" "1.2.4" = VersionChangeType.patch
    ∧ PackageJsonProvider.getVersionChangeType "^1.2.3" "1.2.0" = VersionChangeType.vnone := by
  refine ⟨?_, by decide, by decide, by decide, by decide, by decide⟩
  intro current latest
  unfold PackageJsonProvider.getVersionChangeType PackageJsonProvider.classifySpec
  cases PackageJsonProvider.parseVersion current <;>
    cases PackageJsonProvider.parseVersion latest <;> simp
  split_ifs <;> first | rfl | (exfalso; omega)

/-- The `ParsedVersion` record of `versionCompletionProvider.ts`.  The numeric
fields are `Int` so that the `-1` fallback of the source is representable. -/
structure ParsedVersion where
  major : Int
  minor : Int
  patch : Int
  prerelease : String
  original : String
deriving DecidableEq, Repr

/-- Models `String.prototype.localeCompare` on `List Char`, under the
approximation that the host collation is code-point order, with the
conventional `-1`/`0`/`1` result. -/
def lexCompareL : List Char → List Char → Int
  | [], [] => 0
  | [], _ :: _ => -1
  | _ :: _, [] => 1
  | a :: as, b :: bs => if a < b then -1 else if b < a then 1 else lexCompareL as bs

/-- `localeCompare` on strings (code-point collation approximation). -/
def lexCompare (s t : String) : Int := lexCompareL s.data t.data

namespace VersionCompletionProvider

/-- Models the optional group `(?:-(.+))?` of the ranker's version regex on
the remainder after the numeric triple: the text captured by `(.+)` after the
hyphen (up to a newline, since `.` does not match newlines), or the empty
string when the group does not participate. -/
def preOf (r5 : List Char) : String :=
  match r5 with
  | '-' :: rest =>
    let p := rest.takeWhile (fun c => c ≠ '\n')
    if p.isEmpty then "" else String.mk p
  | _ => ""

/-- `parseVersion` of `VersionCompletionProvider`: match
`/^(\d+)\.(\d+)\.(\d+)(?:-(.+))?/` (no stripping of range characters); on a
match the captured prerelease; on no match, the fallback record with
`major = minor = patch = -1` and `prerelease = version`. -/
def parseVersion (version : String) : ParsedVersion :=
  match matchTriple version.data with
  | some (m, n, p, r5) =>
    ⟨(m : Nat), (n : Nat), (p : Nat), preOf r5, version⟩
  | none => ⟨-1, -1, -1, version, version⟩

/-- `compareVersions` of `VersionCompletionProvider`: major, minor, patch
each descending by numeric difference; a stable version (empty prerelease,
falsy in the source) before a prerelease of the same triple; otherwise
`b.prerelease.localeCompare(a.prerelease)`. -/
def compareVersions (a b : ParsedVersion) : Int :=
  if b.major ≠ a.major then b.major - a.major
  else if b.minor ≠ a.minor then b.minor - a.minor
  else if b.patch ≠ a.patch then b.patch - a.patch
  else if a.prerelease = "" ∧ b.prerelease ≠ "" then -1
  else if a.prerelease ≠ "" ∧ b.prerelease = "" then 1
  else lexCompare b.prerelease a.prerelease

end VersionCompletionProvider

/-- Stable insertion of `x` into a list already sorted by the comparator:
`x` goes before the first element `y` with `cmp x y ≤ 0`. -/
def insertCmp {α : Type} (cmp : α → α → Int) (x : α) : List α → List α
  | [] => [x]
  | y :: ys => if cmp x y ≤ 0 then x :: y :: ys else y :: insertCmp cmp x ys

/-- Stable comparator sort, modelling `Array.prototype.sort` (stable per
ECMAScript 2019) for a consistent comparator. -/
def sortCmp {α : Type} (cmp : α → α → Int) : List α → List α
  | [] => []
  | x :: xs => insertCmp cmp x (sortCmp cmp xs)

/-- Strict descending-lexicographic order on the numeric triple:
`b` strictly newer than `a` compares first. -/
def tripleLt (b a : ParsedVersion) : Prop :=
  b.major < a.major ∨
    (b.major = a.major ∧
      (b.minor < a.minor ∨ (b.minor = a.minor ∧ b.patch < a.patch)))

lemma parseVersion_shape (s : String) :
    VersionCompletionProvider.parseVersion s = ⟨-1, -1, -1, s, s⟩ ∨
      (0 ≤ (VersionCompletionProvider.parseVersion s).major ∧
        0 ≤ (VersionCompletionProvider.parseVersion s).minor ∧
        0 ≤ (VersionCompletionProvider.parseVersion s).patch) := by
  cases h : matchTriple s.data with
  | none => left; simp [VersionCompletionProvider.parseVersion, h]
  | some t =>
    right
    obtain ⟨m, n, p, r5⟩ := t
    simp [VersionCompletionProvider.parseVersion, h, Int.natCast_nonneg]

/-- C2 amended: the CompletionRanker comparator orders candidates descending
by major, then minor, then patch; among equal triples a stable version sorts
before any prerelease and two prereleases are compared by the case-aware
(locale) comparison, descending; every unparseable version sorts after every
parseable one; two *nonempty* unparseable versions are ordered among
themselves by the lexicographic comparison of their original text,
descending; the *empty* string — unparseable with an empty, hence falsy,
fallback prerelease — is instead treated as stable by the prerelease branch
and sorts before every other unparseable; and the spec's four-element
example sorts as stated. -/
theorem compareVersions_ordering_spec :
    (∀ a b : ParsedVersion,
      (a.major ≠ b.major ∨ a.minor ≠ b.minor ∨ a.patch ≠ b.patch) →
        (VersionCompletionProvider.compareVersions a b < 0 ↔ tripleLt b a))
    ∧ (∀ a b : ParsedVersion,
        a.major = b.major → a.minor = b.minor → a.patch = b.patch →
        a.prerelease = "" → b.prerelease ≠ "" →
          VersionCompletionProvider.compareVersions a b < 0)
    ∧ (∀ a b : ParsedVersion,
        a.major = b.major → a.minor = b.minor → a.patch = b.patch →
        a.prerelease ≠ "" → b.prerelease = "" →
          0 < VersionCompletionProvider.compareVersions a b)
    ∧ (∀ a b : ParsedVersion,
        a.major = b.major → a.minor = b.minor → a.patch = b.patch →
        a.prerelease ≠ "" → b.prerelease ≠ "" →
          VersionCompletionProvider.compareVersions a b =
            lexCompare b.prerelease a.prerelease)
    ∧ (∀ s t : String,
        (VersionCompletionProvider.parseVersion s).major = -1 →
        0 ≤ (VersionCompletionProvider.parseVersion t).major →
          VersionCompletionProvider.compareVersions
              (VersionCompletionProvider.parseVersion t)
              (VersionCompletionProvider.parseVersion s) < 0)
    ∧ (∀ s t : String,
        (VersionCompletionProvider.parseVersion s).major = -1 →
        (VersionCompletionProvider.parseVersion t).major = -1 →
        s ≠ "" → t ≠ "" →
          VersionCompletionProvider.compareVersions
              (VersionCompletionProvider.parseVersion s)
              (VersionCompletionProvider.parseVersion t) = lexCompare t s)
    ∧ (∀ t : String,
        (VersionCompletionProvider.parseVersion t).major = -1 → t ≠ "" →
          VersionCompletionProvider.compareVersions
              (VersionCompletionProvider.parseVersion "")
              (VersionCompletionProvider.parseVersion t) < 0
          ∧ 0 < VersionCompletionProvider.compareVersions
              (VersionCompletionProvider.parseVersion t)
              (VersionCompletionProvider.parseVersion ""))
    ∧ (sortCmp VersionCompletionProvider.compareVersions
          (["1.0.0", "2.0.0", "1.5.0", "2.0.0-rc.1"].map
            VersionCompletionProvider.parseVersion)).map ParsedVersion.original =
        ["2.0.0", "2.0.0-rc.1", "1.5.0", "1.0.0"] := by
  have hfall : ∀ s : String, (VersionCompletionProvider.parseVersion s).major = -1 →
      VersionCompletionProvider.parseVersion s = ⟨-1, -1, -1, s, s⟩ := by
    intro s hs
    rcases parseVersion_shape s with h | h
    · exact h
    · exfalso; omega
  refine ⟨?_, ?_, ?_, ?_, ?_, ?_, ?_, by decide⟩
  · intro a b hne
    unfold VersionCompletionProvider.compareVersions tripleLt
    split_ifs <;> first | omega | (exfalso; omega)
  · intro a b h1 h2 h3 h4 h5
    unfold VersionCompletionProvider.compareVersions
    split_ifs <;> first | omega | tauto
  · intro a b h1 h2 h3 h4 h5
    unfold VersionCompletionProvider.compareVersions
    split_ifs <;> first | omega | tauto
  · intro a b h1 h2 h3 h4 h5
    unfold VersionCompletionProvider.compareVersions
    split_ifs <;> first | rfl | omega | tauto
  · intro s t hs ht
    unfold VersionCompletionProvider.compareVersions
    split_ifs <;> omega
  · intro s t hs ht hsne htne
    rw [hfall s hs, hfall t ht]
    unfold VersionCompletionProvider.compareVersions
    split_ifs <;> first | rfl | omega | tauto
  · intro t ht htne
    rw [hfall t ht]
    have h0 : VersionCompletionProvider.parseVersion "" = ⟨-1, -1, -1, "", ""⟩ := by
      decide
    rw [h0]
    refine ⟨?_, ?_⟩ <;>
    · unfold VersionCompletionProvider.compareVersions
      split_ifs <;> first | omega | tauto

/-- Witness for C2: the stable `2.0.0` sorts strictly before the prerelease
`2.0.0-rc.1` of the same numeric triple. -/
theorem compareVersions_ordering_spec_witness :
    VersionCompletionProvider.compareVersions
        (VersionCompletionProvider.parseVersion "2.0.0")
        (VersionCompletionProvider.parseVersion "2.0.0-rc.1") < 0 :=
  compareVersions_ordering_spec.2.1
    (VersionCompletionProvider.parseVersion "2.0.0")
    (VersionCompletionProvider.parseVersion "2.0.0-rc.1")
    (by decide) (by decide) (by decide) (by decide) (by decide)

/-- C2 counterexample: unparseable strings are not ordered among themselves
by the raw lexicographic comparison of their text.  The empty string is
unparseable with an empty, hence falsy, fallback prerelease, so the
stable-before-prerelease branch sorts it *before* the unparseable `"abc"`
(`compareVersions` is negative), whereas among nonempty unparseables the
order is lexicographically *descending* (`"a"` sorts after `"b"`): no single
direction of the raw lexicographic comparison describes both pairs. -/
theorem compareVersions_empty_unparseable_cex :
    VersionCompletionProvider.compareVersions
        (VersionCompletionProvider.parseVersion "")
        (VersionCompletionProvider.parseVersion "abc") = -1
    ∧ lexCompare "" "abc" = -1
    ∧ VersionCompletionProvider.compareVersions
        (VersionCompletionProvider.parseVersion "a")
        (VersionCompletionProvider.parseVersion "b") = 1
    ∧ lexCompare "a" "b" = -1 := by
  decide

/-- C9 counterexample: no version parser in the source both strips the range
characters and retains the prerelease.  The ranker's `parseVersion` — the
only parser with a prerelease component — does not strip `~`, so on
`"~2.0.0-beta.1"` the anchored triple match fails and the fallback record is
returned instead of `major = 2, minor = 0, patch = 0, prerelease = "beta.1"`
as the claim states. -/
theorem parseVersion_strip_retain_cex :
    ¬ ((VersionCompletionProvider.parseVersion "~2.0.0-beta.1").major = 2 ∧
        (VersionCompletionProvider.parseVersion "~2.0.0-beta.1").minor = 0 ∧
        (VersionCompletionProvider.parseVersion "~2.0.0-beta.1").patch = 0 ∧
        (VersionCompletionProvider.parseVersion "~2.0.0-beta.1").prerelease = "beta.1") := by
  decide

/-- C9 amended: the two version parsers split the claimed behaviour.  The
classifier's parser strips every occurrence of `^ ~ > = <` anywhere in the
input (parsing is invariant under pre-stripping) and yields the bare triple,
discarding any prerelease text: `parse("~2.0.0-beta.1") = (2,0,0)`.  The
ranker's parser performs no stripping but retains the text after the triple's
hyphen as the prerelease: `parse("2.0.0-beta.1") = (2,0,0,"beta.1")`, while
`parse("~2.0.0-beta.1")` falls back to the unparseable marker. -/
theorem parse_strip_and_prerelease_split :
    PackageJsonProvider.parseVersion "~2.0.0-beta.1" = some ⟨2, 0, 0⟩
    ∧ VersionCompletionProvider.parseVersion "~2.0.0-beta.1" =
        ⟨-1, -1, -1, "~2.0.0-beta.1", "~2.0.0-beta.1"⟩
    ∧ VersionCompletionProvider.parseVersion "2.0.0-beta.1" =
        ⟨2, 0, 0, "beta.1", "2.0.0-beta.1"⟩
    ∧ ∀ v : String,
        PackageJsonProvider.parseVersion v =
          PackageJsonProvider.parseVersion
            (String.mk (v.data.filter (fun c => !isRangeChar c))) := by
  refine ⟨by decide, by decide, by decide, ?_⟩
  intro v
  simp [PackageJsonProvider.parseVersion, List.filter_filter]

/-- Decimal digit character for a digit value (`9` for anything larger, never
reached by the callers here). -/
def digitChar (d : Nat) : Char :=
  match d with
  | 0 => '0' | 1 => '1' | 2 => '2' | 3 => '3' | 4 => '4'
  | 5 => '5' | 6 => '6' | 7 => '7' | 8 => '8' | _ => '9'

/-- Fuelled decimal rendering, most significant digit first. -/
def natToDigitsAux (fuel n : Nat) : List Char :=
  match fuel with
  | 0 => []
  | fuel + 1 =>
    if n < 10 then [digitChar n]
    else natToDigitsAux fuel (n / 10) ++ [digitChar (n % 10)]

/-- `Number.prototype.toString()` of a non-negative integer index. -/
def natToDigits (n : Nat) : List Char := natToDigitsAux (n + 1) n

/-- `index.toString().padStart(5, '0')`: the rank key of the source. -/
def numToSortText (i : Nat) : String :=
  let s := natToDigits i
  String.mk (List.replicate (5 - s.length) '0' ++ s)

/-- The (label, sortText, preselect) projection of a completion item built by
`provideCompletionItems`. -/
structure RankedItem where
  label : String
  sortText : String
  preselect : Bool
deriving DecidableEq, Repr

namespace VersionCompletionProvider

/-- One completion item of `provideCompletionItems`: `sortText` is the
zero-padded ordinal index, overridden to `'00000'` — with `preselect` set —
when the item's version equals `latestVersion`. -/
def mkItem (latestVersion : String) (i : Nat) (p : ParsedVersion) : RankedItem :=
  if p.original = latestVersion then ⟨p.original, "00000", true⟩
  else ⟨p.original, numToSortText i, false⟩

/-- The item list built over the sorted versions, indices from `i`. -/
def rankedItemsAux (latestVersion : String) (i : Nat) :
    List ParsedVersion → List RankedItem
  | [] => []
  | p :: ps => mkItem latestVersion i p :: rankedItemsAux latestVersion (i + 1) ps

/-- The (label, sortText, preselect) content of the completion list built by
`provideCompletionItems`: versions parsed, sorted by `compareVersions`, then
mapped with their ordinal index. -/
def rankedItems (versions : List String) (latestVersion : String) :
    List RankedItem :=
  rankedItemsAux latestVersion 0 (sortCmp compareVersions (versions.map parseVersion))

end VersionCompletionProvider

lemma digitChar_ge (d : Nat) : ('0' : Char) ≤ digitChar d := by
  unfold digitChar
  split <;> decide

lemma natToDigitsAux_chars (fuel : Nat) :
    ∀ (n : Nat) (c : Char), c ∈ natToDigitsAux fuel n → ('0' : Char) ≤ c := by
  induction fuel with
  | zero => intro n c hc; simp [natToDigitsAux] at hc
  | succ fuel ih =>
    intro n c hc
    unfold natToDigitsAux at hc
    split at hc
    · simp at hc
      subst hc
      exact digitChar_ge n
    · simp at hc
      rcases hc with hc | hc
      · exact ih _ c hc
      · subst hc
        exact digitChar_ge _

lemma lexCompareL_zeros_le :
    ∀ (n : Nat) (cs : List Char), n ≤ cs.length →
      (∀ c ∈ cs, ('0' : Char) ≤ c) → lexCompareL (List.replicate n '0') cs ≤ 0 := by
  intro n
  induction n with
  | zero =>
    intro cs _ _
    cases cs <;> simp [lexCompareL]
  | succ n ih =>
    intro cs hlen hd
    cases cs with
    | nil => simp at hlen
    | cons c cs =>
      have h0 : ('0' : Char) ≤ c := hd c (by simp)
      simp only [List.replicate_succ, lexCompareL]
      split_ifs with h1 h2
      · omega
      · exact absurd h2 (not_lt.mpr h0)
      · refine ih cs (by simpa using hlen) ?_
        intro c' hc'
        exact hd c' (by simp [hc'])

lemma sortText_ge_zeros (i : Nat) : lexCompare "00000" (numToSortText i) ≤ 0 := by
  have hz : ("00000" : String).data = List.replicate 5 '0' := by decide
  unfold lexCompare numToSortText
  rw [hz]
  apply lexCompareL_zeros_le
  · simp
    omega
  · intro c hc
    simp at hc
    rcases hc with hc | hc
    · simp [hc.2]
    · exact natToDigitsAux_chars _ _ c hc

lemma rankedItemsAux_length (latest : String) :
    ∀ (l : List ParsedVersion) (k : Nat),
      (VersionCompletionProvider.rankedItemsAux latest k l).length = l.length := by
  intro l
  induction l with
  | nil => intro k; rfl
  | cons p ps ih =>
    intro k
    simp [VersionCompletionProvider.rankedItemsAux, ih]

lemma rankedItemsAux_get (latest : String) :
    ∀ (l : List ParsedVersion) (k i : Nat)
      (h : i < (VersionCompletionProvider.rankedItemsAux latest k l).length)
      (hl : i < l.length),
      (VersionCompletionProvider.rankedItemsAux latest k l).get ⟨i, h⟩ =
        VersionCompletionProvider.mkItem latest (k + i) (l.get ⟨i, hl⟩) := by
  intro l
  induction l with
  | nil => intro k i h hl; simp at hl
  | cons p ps ih =>
    intro k i h hl
    cases i with
    | zero => simp [VersionCompletionProvider.rankedItemsAux]
    | succ j =>
      have hj : j < (VersionCompletionProvider.rankedItemsAux latest (k + 1) ps).length := by
        simpa [VersionCompletionProvider.rankedItemsAux] using h
      have hjl : j < ps.length := by simpa using hl
      have := ih (k + 1) j hj hjl
      simp only [VersionCompletionProvider.rankedItemsAux, List.get_cons_succ]
      rw [this]
      congr 1
      omega

/-- C3 counterexample: when the registry's latest tag is not the natural
head of the sorted order, the forced rank key of the latest entry ties with —
rather than strictly precedes — the rank key of the entry at natural position
0, since that entry's zero-padded ordinal is also `"00000"`.  With versions
`["2.0.0", "1.0.0"]` and latest `"1.0.0"`, both entries carry rank key
`"00000"`. -/
theorem rank_key_forced_zero_cex :
    VersionCompletionProvider.rankedItems ["2.0.0", "1.0.0"] "1.0.0" =
      [⟨"2.0.0", "00000", false⟩, ⟨"1.0.0", "00000", true⟩]
    ∧ ¬ lexCompare "00000" "00000" < 0 := by
  decide

/-- C3 amended: every entry's rank key is its zero-padded ordinal position in
the sorted sequence, except that an entry whose display text equals
`latestVersion` is forced to rank `"00000"` and flagged pre-selected; the
forced rank key weakly precedes every entry's rank key (it is the minimum),
but it ties with the natural position-0 entry's key rather than strictly
preceding it when the latest is not naturally first. -/
theorem rank_key_assignment :
    ∀ (versions : List String) (latest : String) (i : Nat)
      (h : i < (VersionCompletionProvider.rankedItems versions latest).length),
      (((VersionCompletionProvider.rankedItems versions latest).get ⟨i, h⟩).label = latest →
        ((VersionCompletionProvider.rankedItems versions latest).get ⟨i, h⟩).sortText = "00000" ∧
        ((VersionCompletionProvider.rankedItems versions latest).get ⟨i, h⟩).preselect = true)
      ∧ (((VersionCompletionProvider.rankedItems versions latest).get ⟨i, h⟩).label ≠ latest →
          ((VersionCompletionProvider.rankedItems versions latest).get ⟨i, h⟩).sortText =
            numToSortText i ∧
          ((VersionCompletionProvider.rankedItems versions latest).get ⟨i, h⟩).preselect = false)
      ∧ lexCompare "00000"
          ((VersionCompletionProvider.rankedItems versions latest).get ⟨i, h⟩).sortText ≤ 0 := by
  intro versions latest i h
  unfold VersionCompletionProvider.rankedItems at h ⊢
  have hl : i < (sortCmp VersionCompletionProvider.compareVersions
      (versions.map VersionCompletionProvider.parseVersion)).length := by
    rw [rankedItemsAux_length] at h
    exact h
  rw [rankedItemsAux_get latest _ 0 i h hl]
  unfold VersionCompletionProvider.mkItem
  split_ifs with hp
  · refine ⟨fun _ => ⟨rfl, rfl⟩, fun hne => absurd hp hne, ?_⟩
    show lexCompare "00000" "00000" ≤ 0
    decide
  · refine ⟨fun heq => absurd heq hp, fun _ => ⟨by simp, rfl⟩, ?_⟩
    simpa using sortText_ge_zeros i

/-- Witness for C3 (amended): in the singleton list `["1.0.0"]` with latest
`"1.0.0"`, the single entry is forced to rank `"00000"` and pre-selected. -/
theorem rank_key_assignment_witness :
    ((VersionCompletionProvider.rankedItems ["1.0.0"] "1.0.0").get ⟨0, by decide⟩).sortText =
      "00000" ∧
    ((VersionCompletionProvider.rankedItems ["1.0.0"] "1.0.0").get ⟨0, by decide⟩).preselect =
      true :=
  (rank_key_assignment ["1.0.0"] "1.0.0" 0 (by decide)).1 (by decide)

/-- `const cleanVersionStart = versionStart + prefix.length` of
`provideCompletionItems`. -/
def cleanVersionStart (versionStart : Nat) (pfx : String) : Nat :=
  versionStart + pfx.length

/-- `const cleanVersionLength = versionLength - prefix.length` of
`provideCompletionItems`. -/
def cleanVersionLength (versionLength : Nat) (pfx : String) : Nat :=
  versionLength - pfx.length

/-- The host's "replace a span with a string" edit: replace the characters
at positions `[start, start + len)` of `line` by `repl`. -/
def applyEdit (line : String) (start len : Nat) (repl : String) : String :=
  String.mk (line.data.take start ++ repl.data ++ line.data.drop (start + len))

lemma takeWhile_append_all {p : Char → Bool} :
    ∀ (a b : List Char), (∀ c ∈ a, p c = true) →
      List.takeWhile p (a ++ b) = a ++ List.takeWhile p b := by
  intro a
  induction a with
  | nil => intro b _; simp
  | cons c cs ih =>
    intro b h
    have hc : p c = true := h c (by simp)
    simp [List.takeWhile, hc]
    exact ih b (fun x hx => h x (by simp [hx]))

lemma string_length_data (s : String) : s.length = s.data.length := by
  cases s
  rfl

lemma applyEdit_exact (A mid B : List Char) (repl : String) :
    applyEdit (String.mk (A ++ mid ++ B)) A.length mid.length repl =
      String.mk (A ++ repl.data ++ B) := by
  unfold applyEdit
  have h1 : List.take A.length (A ++ mid ++ B) = A := by
    rw [List.append_assoc]
    exact List.take_left' rfl
  have h2 : List.drop (A.length + mid.length) (A ++ mid ++ B) = B :=
    List.drop_left' (by simp)
  simp only [h1, h2]

/-- The `dist-tags` object of the abbreviated registry document. -/
structure DistTags where
  latest : Option String
deriving DecidableEq, Repr

/-- The parsed abbreviated-metadata document: the optional `dist-tags`
object and the keys of the optional `versions` object in the JSON document's
insertion order (version strings are not integer-like, so `Object.keys`
preserves insertion order). -/
structure NpmJson where
  distTags : Option DistTags
  versions : Option (List String)
deriving DecidableEq, Repr

/-- The `PackageInfo` record of `packageJsonProvider.ts`. -/
structure PackageInfo where
  latestVersion : String
  allVersions : List String
deriving DecidableEq, Repr

/-- One transport outcome observed by `fetchFromNpm`: an HTTP response with
a status code and a body (`none` = the body fails `JSON.parse`), a network
error, or the 5-second timeout. -/
inductive NpmTransport where
  | response (status : Nat) (body : Option NpmJson)
  | netError
  | timedOut
deriving DecidableEq, Repr

namespace PackageJsonProvider

/-- `fetchFromNpm`: status 404 resolves `null`; any other non-200 status
rejects; on 200 the body is parsed, rejecting when malformed; network errors
and the timeout reject. -/
def fetchFromNpm : NpmTransport → Except String (Option NpmJson)
  | NpmTransport.response status body =>
    if status = 404 then Except.ok none
    else if status ≠ 200 then Except.error "HTTP status"
    else
      match body with
      | some d => Except.ok (some d)
      | none => Except.error "JSON parse"
  | NpmTransport.netError => Except.error "network error"
  | NpmTransport.timedOut => Except.error "Request timeout"

/-- The `try` block of `fetchPackageInfo`: await the transport (re-throwing
its failure); return `null` when the document, its `dist-tags`, or the
`latest` tag is absent or empty (falsy); otherwise extract `latestVersion`
from the `latest` dist-tag and `allVersions` as
`Object.keys(data.versions || {}).reverse()`. -/
def fetchPackageInfoTry (t : NpmTransport) : Except String (Option PackageInfo) :=
  match fetchFromNpm t with
  | Except.error e => Except.error e
  | Except.ok none => Except.ok none
  | Except.ok (some d) =>
    match d.distTags with
    | none => Except.ok none
    | some tags =>
      match tags.latest with
      | none => Except.ok none
      | some latest =>
        if latest = "" then Except.ok none
        else Except.ok (some ⟨latest, (d.versions.getD []).reverse⟩)

/-- `fetchPackageInfo`: the `try` block wrapped in its `catch` clause, which
logs and returns `null` — failures never cross the component boundary. -/
def fetchPackageInfo (t : NpmTransport) : Except String (Option PackageInfo) :=
  match fetchPackageInfoTry t with
  | Except.error _ => Except.ok none
  | Except.ok v => Except.ok v

/-- `Promise.all` on a list of settled fetches, up to the unit result of
`prefetchPackages`: rejects exactly when some member rejects. -/
def promiseAllUnit : List (Except String (Option PackageInfo)) → Except String Unit
  | [] => Except.ok ()
  | Except.error e :: _ => Except.error e
  | Except.ok _ :: rest => promiseAllUnit rest

/-- `prefetchPackages`: filter out already-cached names and issue the
remaining fetches concurrently, joining them with `Promise.all`. -/
def prefetchPackages (cache : List String) (transport : String → NpmTransport)
    (names : List String) : Except String Unit :=
  promiseAllUnit
    ((names.filter (fun n => !cache.contains n)).map
      (fun n => fetchPackageInfo (transport n)))

end PackageJsonProvider

lemma promiseAllUnit_ok (l : List (Except String (Option PackageInfo)))
    (h : ∀ x ∈ l, ∃ r, x = Except.ok r) :
    PackageJsonProvider.promiseAllUnit l = Except.ok () := by
  induction l with
  | nil => rfl
  | cons x rest ih =>
    obtain ⟨r, hr⟩ := h x (by simp)
    subst hr
    exact ih (fun y hy => h y (by simp [hy]))

/-- C5: `getPackageInfo` never rejects across the component boundary — every
transport outcome resolves; HTTP 404, any other non-200 status, a malformed
body, a missing `dist-tags` object or missing `latest` tag, a network error
and the timeout all resolve to an absent result; and `prefetchPackages`
always settles successfully regardless of individual outcomes. -/
theorem fetchPackageInfo_absorbs_failures :
    (∀ t, ∃ r, PackageJsonProvider.fetchPackageInfo t = Except.ok r)
    ∧ (∀ body, PackageJsonProvider.fetchPackageInfo (NpmTransport.response 404 body) =
        Except.ok none)
    ∧ (∀ status body, status ≠ 404 → status ≠ 200 →
        PackageJsonProvider.fetchPackageInfo (NpmTransport.response status body) =
          Except.ok none)
    ∧ PackageJsonProvider.fetchPackageInfo (NpmTransport.response 200 none) = Except.ok none
    ∧ (∀ vs, PackageJsonProvider.fetchPackageInfo
        (NpmTransport.response 200 (some ⟨none, vs⟩)) = Except.ok none)
    ∧ (∀ vs, PackageJsonProvider.fetchPackageInfo
        (NpmTransport.response 200 (some ⟨some ⟨none⟩, vs⟩)) = Except.ok none)
    ∧ PackageJsonProvider.fetchPackageInfo NpmTransport.timedOut = Except.ok none
    ∧ PackageJsonProvider.fetchPackageInfo NpmTransport.netError = Except.ok none
    ∧ (∀ cache transport names,
        PackageJsonProvider.prefetchPackages cache transport names = Except.ok ()) := by
  have hok : ∀ t, ∃ r, PackageJsonProvider.fetchPackageInfo t = Except.ok r := by
    intro t
    cases h : PackageJsonProvider.fetchPackageInfoTry t with
    | error e => exact ⟨none, by simp [PackageJsonProvider.fetchPackageInfo, h]⟩
    | ok v => exact ⟨v, by simp [PackageJsonProvider.fetchPackageInfo, h]⟩
  refine ⟨hok, ?_, ?_, by rfl, ?_, ?_, by rfl, by rfl, ?_⟩
  · intro body
    simp [PackageJsonProvider.fetchPackageInfo, PackageJsonProvider.fetchPackageInfoTry,
      PackageJsonProvider.fetchFromNpm]
  · intro status body h404 h200
    simp [PackageJsonProvider.fetchPackageInfo, PackageJsonProvider.fetchPackageInfoTry,
      PackageJsonProvider.fetchFromNpm, h404, h200]
  · intro vs
    rfl
  · intro vs
    rfl
  · intro cache transport names
    apply promiseAllUnit_ok
    intro x hx
    simp at hx
    obtain ⟨n, _, hn⟩ := hx
    exact hn ▸ hok (transport n)

/-- Witness for C5: an HTTP 500 response resolves to an absent result. -/
theorem fetchPackageInfo_absorbs_failures_witness :
    PackageJsonProvider.fetchPackageInfo (NpmTransport.response 500 none) = Except.ok none :=
  fetchPackageInfo_absorbs_failures.2.2.1 500 none (by decide) (by decide)

/-- C10 counterexample: a successful fetch whose `versions` keys appear as
`["1.0.0", "2.0.0"]` in document insertion order yields
`allVersions = ["2.0.0", "1.0.0"]` — the source applies `.reverse()` to
`Object.keys`, so `allVersions` is not in insertion order. -/
theorem allVersions_insertion_order_cex :
    PackageJsonProvider.fetchPackageInfo
        (NpmTransport.response 200 (some ⟨some ⟨some "2.0.0"⟩, some ["1.0.0", "2.0.0"]⟩)) =
      Except.ok (some ⟨"2.0.0", ["2.0.0", "1.0.0"]⟩)
    ∧ (["2.0.0", "1.0.0"] : List String) ≠ ["1.0.0", "2.0.0"] :=
  ⟨rfl, by decide⟩

/-- C10 amended: for every successful fetch, `latestVersion` equals the
`latest` entry of the distribution-tags map, and `allVersions` equals the
published version identifiers of the response's `versions` field in
*reversed* insertion order (same set, reversed sequence). -/
theorem fetch_extracts_latest_and_reversed_versions :
    ∀ (latest : String) (vs : List String), latest ≠ "" →
      PackageJsonProvider.fetchPackageInfo
          (NpmTransport.response 200 (some ⟨some ⟨some latest⟩, some vs⟩)) =
        Except.ok (some ⟨latest, vs.reverse⟩) := by
  intro latest vs hne
  simp [PackageJsonProvider.fetchPackageInfo, PackageJsonProvider.fetchPackageInfoTry,
    PackageJsonProvider.fetchFromNpm, hne]

/-- Witness for C10 (amended): a concrete successful fetch. -/
theorem fetch_extracts_latest_and_reversed_versions_witness :
    PackageJsonProvider.fetchPackageInfo
        (NpmTransport.response 200 (some ⟨some ⟨some "1.1.0"⟩, some ["1.0.0", "1.1.0"]⟩)) =
      Except.ok (some ⟨"1.1.0", ["1.1.0", "1.0.0"]⟩) :=
  fetch_extracts_latest_and_reversed_versions "1.1.0" ["1.0.0", "1.1.0"] (by decide)

/-- The observable client state for the cache / in-flight discipline of
`getPackageInfo`: the key sets of the cache and the `pendingRequests` map,
the multiset of issued-but-unsettled network requests, and a cumulative
per-name request counter (the spec's mock transport call counter). -/
structure RCState where
  cache : List String
  pending : List String
  outstanding : List String
  requested : String → Nat

/-- How a `getPackageInfo` call returns at the moment it is issued: from the
cache, by joining the existing pending promise, or by creating the request. -/
inductive CallResult where
  | cached
  | joined
  | created
deriving DecidableEq, Repr

namespace PackageJsonProvider

/-- The synchronous prefix of `getPackageInfo`: return the cache entry if
present; otherwise join an existing in-flight promise if present; otherwise
create the fetch (the underlying `https.get` is issued inside the same
synchronous frame) and record it in the in-flight map. -/
def callStep (s : RCState) (name : String) : RCState × CallResult :=
  if name ∈ s.cache then (s, CallResult.cached)
  else if name ∈ s.pending then (s, CallResult.joined)
  else
    ({ s with
        pending := name :: s.pending,
        outstanding := name :: s.outstanding,
        requested := fun n => if n = name then s.requested n + 1 else s.requested n },
      CallResult.created)

/-- Settlement of the request for `name`: on success `fetchPackageInfo`
stores the cache entry; either way the creating caller's `finally` removes
the in-flight map entry and the network request is no longer outstanding. -/
def settleStep (s : RCState) (name : String) (success : Bool) : RCState :=
  if name ∈ s.pending then
    { cache := if success then name :: s.cache else s.cache,
      pending := s.pending.erase name,
      outstanding := s.outstanding.erase name,
      requested := s.requested }
  else s

/-- The start state: empty cache, no in-flight entries, no requests issued. -/
def initState : RCState := ⟨[], [], [], fun _ => 0⟩

/-- States reachable under the single-threaded event ordering: any
interleaving of `getPackageInfo` call prefixes and request settlements. -/
inductive Reachable : RCState → Prop where
  | init : Reachable initState
  | call (s : RCState) (name : String) : Reachable s → Reachable (callStep s name).1
  | settle (s : RCState) (name : String) (ok : Bool) :
      Reachable s → Reachable (settleStep s name ok)

end PackageJsonProvider

lemma reachable_counts (s : RCState) (h : PackageJsonProvider.Reachable s) :
    ∀ name, s.outstanding.count name = s.pending.count name ∧
      s.pending.count name ≤ 1 := by
  induction h with
  | init =>
    intro name
    simp [PackageJsonProvider.initState]
  | call s' n _ ih =>
    intro name
    unfold PackageJsonProvider.callStep
    split_ifs with h1 h2
    · exact ih name
    · exact ih name
    · obtain ⟨he, hle⟩ := ih name
      by_cases hn : name = n
      · subst hn
        have hp0 : s'.pending.count name = 0 := List.count_eq_zero.mpr h2
        constructor
        · simp [List.count_cons_self, he]
        · simp [List.count_cons_self, hp0]
      · constructor
        · simpa [List.count_cons_of_ne hn] using he
        · simpa [List.count_cons_of_ne hn] using hle
  | settle s' n ok _ ih =>
    intro name
    unfold PackageJsonProvider.settleStep
    by_cases h1 : n ∈ s'.pending
    · rw [if_pos h1]
      obtain ⟨he, hle⟩ := ih name
      by_cases hn : name = n
      · subst hn
        refine ⟨?_, ?_⟩
        · simp [List.count_erase_self, he]
        · simp only [List.count_erase_self]
          omega
      · refine ⟨?_, ?_⟩
        · simp [List.count_erase_of_ne hn, he]
        · simp only [List.count_erase_of_ne hn]
          exact hle
    · rw [if_neg h1]
      exact ih name

/-- C4: at most one outstanding registry request per package name.  In every
reachable state the number of outstanding requests for a name is at most one;
a call observing neither a cache entry nor an in-flight entry creates the
single request, records it in the in-flight map and increments the transport
counter by exactly one; a call observing an in-flight entry joins it, leaving
the state (and the transport counter) untouched; and settlement — success or
failure — removes the in-flight entry. -/
theorem getPackageInfo_single_flight :
    (∀ s, PackageJsonProvider.Reachable s → ∀ name, s.outstanding.count name ≤ 1)
    ∧ (∀ s name, name ∉ s.cache → name ∉ s.pending →
        (PackageJsonProvider.callStep s name).2 = CallResult.created
        ∧ name ∈ (PackageJsonProvider.callStep s name).1.pending
        ∧ (PackageJsonProvider.callStep s name).1.requested name = s.requested name + 1)
    ∧ (∀ s name, name ∉ s.cache → name ∈ s.pending →
        (PackageJsonProvider.callStep s name).2 = CallResult.joined
        ∧ (PackageJsonProvider.callStep s name).1 = s)
    ∧ (∀ s name ok, PackageJsonProvider.Reachable s →
        name ∉ (PackageJsonProvider.settleStep s name ok).pending) := by
  refine ⟨?_, ?_, ?_, ?_⟩
  · intro s hs name
    obtain ⟨he, hle⟩ := reachable_counts s hs name
    omega
  · intro s name h1 h2
    unfold PackageJsonProvider.callStep
    rw [if_neg h1, if_neg h2]
    refine ⟨rfl, by simp, by simp⟩
  · intro s name h1 h2
    unfold PackageJsonProvider.callStep
    rw [if_neg h1, if_pos h2]
    exact ⟨rfl, rfl⟩
  · intro s name ok hs
    obtain ⟨_, hle⟩ := reachable_counts s hs name
    unfold PackageJsonProvider.settleStep
    by_cases h1 : name ∈ s.pending
    · rw [if_pos h1]
      have hcnt : (s.pending.erase name).count name = 0 := by
        rw [List.count_erase_self]
        omega
      simpa using List.count_eq_zero.mp hcnt
    · rw [if_neg h1]
      exact h1

/-- Witness for C4: after two calls for the same name from the start state,
the second call joins the first's pending request and exactly one request is
outstanding. -/
theorem getPackageInfo_single_flight_witness :
    ((PackageJsonProvider.callStep
        (PackageJsonProvider.callStep PackageJsonProvider.initState "lodash").1
        "lodash").1.outstanding.count "lodash" ≤ 1)
    ∧ (PackageJsonProvider.callStep
        (PackageJsonProvider.callStep PackageJsonProvider.initState "lodash").1
        "lodash").2 = CallResult.joined :=
  ⟨getPackageInfo_single_flight.1 _
      (PackageJsonProvider.Reachable.call _ "lodash"
        (PackageJsonProvider.Reachable.call _ "lodash"
          PackageJsonProvider.Reachable.init))
      "lodash",
    ((getPackageInfo_single_flight.2.2.1
        (PackageJsonProvider.callStep PackageJsonProvider.initState "lodash").1
        "lodash" (by decide) (by decide))).1⟩

/-- The `DependencyLocation` record of `packageJsonProvider.ts`. -/
structure DependencyLocation where
  packageName : String
  currentVersion : String
  line : Nat
  versionStartChar : Nat
  versionLength : Nat
deriving DecidableEq, Repr

/-- The `ClickableZone` interface of `packageJsonProvider.ts`.  The interface
declares a required `latestVersion: string`, but the zone object literals in
`updateDecorations` omit that property, so the field is modelled as an
`Option` (`none` = the JS `undefined` read of a missing property). -/
structure ClickableZone where
  line : Nat
  startChar : Nat
  endChar : Nat
  packageName : String
  currentVersion : String
  versionStartChar : Nat
  versionLength : Nat
  latestVersion : Option String
deriving DecidableEq, Repr

namespace VersionInlayHintsProvider

/-- The zone-construction loop of `updateDecorations`: for every dependency
paired with its (possibly absent) registry info — absent info is skipped —
strip range characters from the current version, test validity against
`allVersions`, classify against the latest version; push a zone for an
invalid current version or for any non-`None` change, spanning from the
version start to past the rendered annotation text (`+ 5` slack).  Both push
sites omit the `latestVersion` property (modelled as `none`), exactly as the
source's object literals do. -/
def buildClickableZones :
    List (DependencyLocation × Option PackageInfo) → List ClickableZone
  | [] => []
  | (_, none) :: rest => buildClickableZones rest
  | (dep, some info) :: rest =>
    let currentVersionClean :=
      String.mk (dep.currentVersion.data.filter (fun c => !isRangeChar c))
    let latestVersion := info.latestVersion
    let isValidVersion := info.allVersions.contains currentVersionClean
    let changeType :=
      PackageJsonProvider.getVersionChangeType currentVersionClean latestVersion
    if !isValidVersion then
      let decorationText := "Version Not Found → " ++ latestVersion
      { line := dep.line,
        startChar := dep.versionStartChar,
        endChar := dep.versionStartChar + dep.versionLength + decorationText.length + 5,
        packageName := dep.packageName,
        currentVersion := dep.currentVersion,
        versionStartChar := dep.versionStartChar,
        versionLength := dep.versionLength,
        latestVersion := none } :: buildClickableZones rest
    else if changeType ≠ VersionChangeType.vnone then
      let decorationText := "→ " ++ latestVersion
      { line := dep.line,
        startChar := dep.versionStartChar,
        endChar := dep.versionStartChar + dep.versionLength + decorationText.length + 5,
        packageName := dep.packageName,
        currentVersion := dep.currentVersion,
        versionStartChar := dep.versionStartChar,
        versionLength := dep.versionLength,
        latestVersion := none } :: buildClickableZones rest
    else buildClickableZones rest

/-- The direct-update guard of the extension's selection handler:
`afterVersionString && zone.latestVersion` (a truthy test, so a missing
property — and the empty string — are both falsy). -/
def directUpdateGuard (zone : ClickableZone) (posChar : Nat) : Bool :=
  (decide (posChar > zone.versionStartChar + zone.versionLength + 1)) &&
    (match zone.latestVersion with
     | none => false
     | some v => v != "")

end VersionInlayHintsProvider

/-- C7 (code bug): the zone built for a dependency with resolved registry
info (`lodash` at `4.17.20`, latest `4.17.21`, a `Patch` change) carries the
package name, current version text and version span, but its `latestVersion`
property is missing (`none`) — the object literals in `updateDecorations`
omit the field the `ClickableZone` interface declares — so the selection
handler's direct-update guard `afterVersionString && zone.latestVersion` is
false at every click position and a click past the version string can never
apply the direct update the claim describes. -/
theorem clickable_zone_missing_latest :
    VersionInlayHintsProvider.buildClickableZones
        [(⟨"lodash", "4.17.20", 3, 15, 7⟩, some ⟨"4.17.21", ["4.17.21", "4.17.20"]⟩)] =
      [⟨3, 15, 36, "lodash", "4.17.20", 15, 7, none⟩]
    ∧ ∀ posChar : Nat,
        VersionInlayHintsProvider.directUpdateGuard
          ⟨3, 15, 36, "lodash", "4.17.20", 15, 7, none⟩ posChar = false := by
  refine ⟨by decide, ?_⟩
  intro posChar
  simp [VersionInlayHintsProvider.directUpdateGuard]

/-- Opening curly brace character. -/
def curlyOpen : Char := Char.ofNat 123

/-- Closing curly brace character. -/
def curlyClose : Char := Char.ofNat 125

/-- The JavaScript regex class `\s` (ASCII portion). -/
def isJsWs (c : Char) : Bool :=
  c = ' ' || c = '\t' || c = '\n' || c = '\r' || c = '\x0b' || c = '\x0c'

/-- The skip test of `parseDependencies`:
`/^(file:|link:|git:|git\+|github:|http:|https:)/.test(version)`. -/
def startsWithScheme (v : String) : Bool :=
  ["file:", "link:", "git:", "git+", "github:", "http:", "https:"].any
    (fun p => p.data.isPrefixOf v.data)

/-- Consume an exact literal from the front of the input. -/
def dropLiteral : List Char → List Char → Option (List Char)
  | [], cs => some cs
  | _ :: _, [] => none
  | l :: ls, c :: cs => if c = l then dropLiteral ls cs else none

/-- One attempt of the section regex `"?section?"\s*:\s*\{([^}]*)\}` at the
current position: on success, the body start offset (one past the opening
brace, matching `match.index + match[0].indexOf(curlyOpen) + 1`), the body
(group 1), the total match length, and the remainder after the match. -/
def matchSectionAt (sec : List Char) (cs : List Char) :
    Option (Nat × List Char × Nat × List Char) :=
  match dropLiteral ('"' :: (sec ++ ['"'])) cs with
  | none => none
  | some r1 =>
    let ws1 := r1.takeWhile isJsWs
    let r2 := r1.dropWhile isJsWs
    match r2 with
    | ':' :: r3 =>
      let ws2 := r3.takeWhile isJsWs
      let r4 := r3.dropWhile isJsWs
      match r4 with
      | c :: r5 =>
        if c = curlyOpen then
          let body := r5.takeWhile (fun ch => ch ≠ curlyClose)
          let r6 := r5.dropWhile (fun ch => ch ≠ curlyClose)
          match r6 with
          | _ :: r7 =>
            let bodyOff := sec.length + 2 + ws1.length + 1 + ws2.length + 1
            some (bodyOff, body, bodyOff + body.length + 1, r7)
          | [] => none
        else none
      | [] => none
    | _ => none

/-- All matches of the global section regex over the text, scanning left to
right and resuming after each match (`lastIndex` semantics): pairs of
absolute body start index and body content. -/
def findSections (sec : List Char) (fuel i : Nat) (cs : List Char) :
    List (Nat × List Char) :=
  match fuel with
  | 0 => []
  | fuel + 1 =>
    match cs with
    | [] => []
    | _ :: rest =>
      match matchSectionAt sec cs with
      | some (bodyOff, body, matchLen, remainder) =>
        (i + bodyOff, body) :: findSections sec fuel (i + matchLen) remainder
      | none => findSections sec fuel (i + 1) rest

/-- One attempt of the package regex `"([^"]+)"\s*:\s*"([^"]+)"` at the
current position: on success the name, the version, the total match length
and the remainder after the match. -/
def matchPairAt (cs : List Char) : Option (String × String × Nat × List Char) :=
  match cs with
  | '"' :: r0 =>
    let nm := r0.takeWhile (fun ch => ch ≠ '"')
    let r1 := r0.dropWhile (fun ch => ch ≠ '"')
    if nm.isEmpty then none else
    match r1 with
    | _ :: r2 =>
      let ws1 := r2.takeWhile isJsWs
      let r3 := r2.dropWhile isJsWs
      match r3 with
      | ':' :: r4 =>
        let ws2 := r4.takeWhile isJsWs
        let r5 := r4.dropWhile isJsWs
        match r5 with
        | '"' :: r6 =>
          let ver := r6.takeWhile (fun ch => ch ≠ '"')
          let r7 := r6.dropWhile (fun ch => ch ≠ '"')
          if ver.isEmpty then none else
          match r7 with
          | _ :: r8 =>
            some (String.mk nm, String.mk ver,
              nm.length + ws1.length + ws2.length + ver.length + 5, r8)
          | [] => none
        | _ => none
      | _ => none
    | [] => none
  | _ => none

/-- All matches of the global package regex over a section body, with each
match's start index relative to the body. -/
def findPairs (fuel i : Nat) (cs : List Char) : List (String × String × Nat) :=
  match fuel with
  | 0 => []
  | fuel + 1 =>
    match cs with
    | [] => []
    | _ :: rest =>
      match matchPairAt cs with
      | some (nm, ver, len, remainder) =>
        (nm, ver, i) :: findPairs fuel (i + len) remainder
      | none => findPairs fuel (i + 1) rest

/-- `document.positionAt(idx).line`: the number of newlines before `idx`. -/
def lineIndexAt (text : List Char) (idx : Nat) : Nat :=
  (text.take idx).count '\n'

/-- `document.lineAt(line).text`: the line's characters without the newline. -/
def lineTextAt (text : List Char) (line : Nat) : List Char :=
  (text.splitOn '\n').getD line []

/-- One attempt of the re-location regex `"?name?"\s*:\s*"([^"]+)"` at the
current position of a line (the name is regex-escaped in the source, hence a
literal here). -/
def matchNamePairAt (name : List Char) (cs : List Char) : Bool :=
  match dropLiteral ('"' :: (name ++ ['"'])) cs with
  | none => false
  | some r1 =>
    match r1.dropWhile isJsWs with
    | ':' :: r2 =>
      match r2.dropWhile isJsWs with
      | '"' :: r3 =>
        !(r3.takeWhile (fun ch => ch ≠ '"')).isEmpty &&
          !(r3.dropWhile (fun ch => ch ≠ '"')).isEmpty
      | _ => false
    | _ => false

/-- `lineText.match(...)` truthiness: some position of the line matches. -/
def lineHasPairAux (name : List Char) (fuel : Nat) (cs : List Char) : Bool :=
  match fuel with
  | 0 => false
  | fuel + 1 =>
    match cs with
    | [] => false
    | _ :: rest =>
      if matchNamePairAt name cs then true else lineHasPairAux name fuel rest

/-- Whether the re-location regex matches somewhere in the line. -/
def lineHasPair (name : List Char) (line : List Char) : Bool :=
  lineHasPairAux name (line.length + 1) line

/-- `lineText.indexOf(pat)`: first index where `pat` occurs, if any. -/
def indexOfSubstrAux (pat : List Char) (fuel i : Nat) (cs : List Char) : Option Nat :=
  match fuel with
  | 0 => none
  | fuel + 1 =>
    if pat.isPrefixOf cs then some i
    else
      match cs with
      | [] => none
      | _ :: rest => indexOfSubstrAux pat fuel (i + 1) rest

/-- `lineText.indexOf(pat)` as an `Option`. -/
def indexOfSubstr (pat cs : List Char) : Option Nat :=
  indexOfSubstrAux pat (cs.length + 1) 0 cs

namespace PackageJsonProvider

/-- The per-match body of the inner loop of `parseDependencies`: skip
scheme-prefixed versions; resolve the match's absolute offset to a line; drop
the match when the `"name": "version"` pair cannot be re-located on that line
or the quoted version cannot be found by `indexOf`; otherwise emit the
`DependencyLocation` (version start is one past the located opening quote). -/
def processPairs (text : List Char) (sectionStart : Nat) :
    List (String × String × Nat) → List DependencyLocation
  | [] => []
  | (packageName, version, idx) :: rest =>
    if startsWithScheme version then processPairs text sectionStart rest
    else
      if lineHasPair packageName.data
          (lineTextAt text (lineIndexAt text (sectionStart + idx))) then
        match indexOfSubstr ('"' :: (version.data ++ ['"']))
            (lineTextAt text (lineIndexAt text (sectionStart + idx))) with
        | some vstart =>
          ⟨packageName, version, lineIndexAt text (sectionStart + idx),
            vstart + 1, version.length⟩ ::
            processPairs text sectionStart rest
        | none => processPairs text sectionStart rest
      else processPairs text sectionStart rest

/-- The four recognized dependency sections, in the source's order. -/
def depSections : List String :=
  ["dependencies", "devDependencies", "peerDependencies", "optionalDependencies"]

/-- `parseDependencies`: for each section, every section-regex match over the
full text; within each matched body, every package-pair match, processed by
`processPairs`. -/
def parseDependencies (document : String) : List DependencyLocation :=
  let text := document.data
  (depSections.map (fun sec =>
    ((findSections sec.data (text.length + 1) 0 text).map (fun bs =>
      processPairs text bs.1 (findPairs (bs.2.length + 1) 0 bs.2))).flatten)).flatten

end PackageJsonProvider

lemma processPairs_no_scheme (text : List Char) (s : Nat) :
    ∀ (pairs : List (String × String × Nat)) (d : DependencyLocation),
      d ∈ PackageJsonProvider.processPairs text s pairs →
      startsWithScheme d.currentVersion = false := by
  intro pairs
  induction pairs with
  | nil =>
    intro d hd
    simp [PackageJsonProvider.processPairs] at hd
  | cons p rest ih =>
    intro d hd
    obtain ⟨nm, ver, idx⟩ := p
    unfold PackageJsonProvider.processPairs at hd
    by_cases hs : startsWithScheme ver = true
    · rw [if_pos hs] at hd
      exact ih d hd
    · rw [if_neg hs] at hd
      by_cases hl : lineHasPair nm.data
          (lineTextAt text (lineIndexAt text (s + idx))) = true
      · rw [if_pos hl] at hd
        cases hidx : indexOfSubstr ('"' :: (ver.data ++ ['"']))
            (lineTextAt text (lineIndexAt text (s + idx))) with
        | none =>
          rw [hidx] at hd
          exact ih d hd
        | some v =>
          rw [hidx] at hd
          rcases List.mem_cons.mp hd with heq | hmem
          · subst heq
            simpa using hs
          · exact ih d hmem
      · rw [if_neg hl] at hd
        exact ih d hd

/-- C8: the scan never emits a `DependencyLocation` for an entry whose
version value begins with one of the scheme markers `file:`, `link:`,
`git:`, `git+`, `github:`, `http:`, `https:` — every emitted location's
current version fails the scheme test, and a location emitted for an entry
carries exactly that entry's version text. -/
theorem scan_skips_scheme_versions :
    ∀ (document : String) (d : DependencyLocation),
      d ∈ PackageJsonProvider.parseDependencies document →
      startsWithScheme d.currentVersion = false := by
  intro document d hd
  unfold PackageJsonProvider.parseDependencies at hd
  obtain ⟨l1, hl1, hdl⟩ := List.mem_flatten.mp hd
  obtain ⟨sec, hsec, hl1eq⟩ := List.mem_map.mp hl1
  subst hl1eq
  obtain ⟨l2, hl2, hdl2⟩ := List.mem_flatten.mp hdl
  obtain ⟨bs, hbs, hl2eq⟩ := List.mem_map.mp hl2
  subst hl2eq
  exact processPairs_no_scheme _ _ _ d hdl2

/-- Witness for C8: on a one-line manifest with a `file:`-prefixed entry and
a registry entry, the scan emits the location of the registry entry (whose
version fails the scheme test) and nothing for the `file:` entry. -/
theorem scan_skips_scheme_versions_witness :
    startsWithScheme "1.0.0" = false :=
  scan_skips_scheme_versions
    "\x7b\"dependencies\": \x7b\"a\": \"file:../x\", \"b\": \"1.0.0\"\x7d\x7d"
    ⟨"b", "1.0.0", 0, 42, 5⟩ (by decide)

/-- The first-match extraction of the completion provider's line regex
`/"([^"]+)"\s*:\s*"([\^~>=<]*)([^"]+)"/`: `headIs` consumes one expected
character. -/
def headIs (c0 : Char) (cs : List Char) : Option (List Char) :=
  match cs with
  | [] => none
  | c :: r => if c = c0 then some r else none

/-- `([^"]+)"`: a non-empty run of non-quote characters followed by a
closing quote; returns the run and the remainder after the quote. -/
def afterLiteralQuote (cs : List Char) : Option (List Char × List Char) :=
  if (cs.takeWhile (fun ch => ch ≠ '"')).isEmpty then none
  else
    match cs.dropWhile (fun ch => ch ≠ '"') with
    | [] => none
    | _ :: rest => some (cs.takeWhile (fun ch => ch ≠ '"'), rest)

/-- `\s*:\s*"`: optional whitespace, a colon, optional whitespace, an
opening quote; returns the remainder after the quote. -/
def expectColonQuote (cs : List Char) : Option (List Char) :=
  match headIs ':' (cs.dropWhile isJsWs) with
  | none => none
  | some r => headIs '"' (r.dropWhile isJsWs)

/-- One attempt of the line regex at the current position, returning group 2
on success: `"name"` (group 1, non-empty, no quotes), `\s*:\s*`, then the
quoted value split as `([\^~>=<]*)([^"]+)` — group 2 greedy over the
range-character run, backed off by one character when the run covers the
whole value, since group 3 must still consume at least one character. -/
def matchLinePrefixAt (cs : List Char) : Option (List Char) :=
  match cs with
  | [] => none
  | c :: r0 =>
    if c = '"' then
      match afterLiteralQuote r0 with
      | none => none
      | some (_, r2) =>
        match expectColonQuote r2 with
        | none => none
        | some r6 =>
          match afterLiteralQuote r6 with
          | none => none
          | some (value, _) =>
            if (value.takeWhile isRangeChar).length = value.length then
              some ((value.takeWhile isRangeChar).dropLast)
            else
              some (value.takeWhile isRangeChar)
    else none

/-- Left-to-right search for the first position where the line regex
matches. -/
def linePrefixAux (fuel : Nat) (cs : List Char) : Option (List Char) :=
  match fuel with
  | 0 => none
  | fuel + 1 =>
    match cs with
    | [] => none
    | _ :: rest =>
      match matchLinePrefixAt cs with
      | some g2 => some g2
      | none => linePrefixAux fuel rest

/-- `const prefix = versionMatch?.[2] || ''` of `provideCompletionItems`:
group 2 of the *first* match of the line regex over the whole line text, or
the empty string when the line does not match. -/
def linePrefix (lineText : String) : String :=
  match linePrefixAux (lineText.data.length + 1) lineText.data with
  | some g2 => String.mk g2
  | none => ""

lemma dropWhile_append_all {p : Char → Bool} :
    ∀ (a b : List Char), (∀ c ∈ a, p c = true) →
      List.dropWhile p (a ++ b) = List.dropWhile p b := by
  intro a
  induction a with
  | nil => intro b _; simp
  | cons c cs ih =>
    intro b h
    have hc : p c = true := h c (by simp)
    simp [List.dropWhile, hc]
    exact ih b (fun x hx => h x (by simp [hx]))

lemma takeWhile_stop {p : Char → Bool} (a : List Char) (c0 : Char) (b : List Char)
    (ha : ∀ c ∈ a, p c = true) (hc0 : p c0 = false) :
    List.takeWhile p (a ++ c0 :: b) = a := by
  rw [takeWhile_append_all a _ ha]
  simp [List.takeWhile, hc0]

lemma dropWhile_stop {p : Char → Bool} (a : List Char) (c0 : Char) (b : List Char)
    (ha : ∀ c ∈ a, p c = true) (hc0 : p c0 = false) :
    List.dropWhile p (a ++ c0 :: b) = c0 :: b := by
  rw [dropWhile_append_all a _ ha]
  simp [List.dropWhile, hc0]

lemma afterLiteralQuote_spec (a b : List Char)
    (ha : ∀ c ∈ a, c ≠ '"') (hne : a ≠ []) :
    afterLiteralQuote (a ++ '"' :: b) = some (a, b) := by
  have ha' : ∀ c ∈ a, (fun ch => decide (ch ≠ '"')) c = true := by
    intro c hc
    simpa using ha c hc
  have ht : List.takeWhile (fun ch => ch ≠ '"') (a ++ '"' :: b) = a :=
    takeWhile_stop a '"' b ha' (by decide)
  have hd : List.dropWhile (fun ch => ch ≠ '"') (a ++ '"' :: b) = '"' :: b :=
    dropWhile_stop a '"' b ha' (by decide)
  unfold afterLiteralQuote
  rw [ht, hd, if_neg (by simpa [List.isEmpty_iff] using hne)]

lemma expectColonQuote_spec (w1 w2 rest : List Char)
    (hw1 : ∀ c ∈ w1, isJsWs c = true) (hw2 : ∀ c ∈ w2, isJsWs c = true) :
    expectColonQuote (w1 ++ ':' :: (w2 ++ '"' :: rest)) = some rest := by
  unfold expectColonQuote
  rw [dropWhile_stop w1 ':' _ hw1 (by decide)]
  simp only [headIs, if_pos]
  rw [dropWhile_stop w2 '"' rest hw2 (by decide)]
  simp [headIs]

lemma matchLinePrefixAt_nonquote {c : Char} (hc : c ≠ '"') (r0 : List Char) :
    matchLinePrefixAt (c :: r0) = none := by
  simp only [matchLinePrefixAt]
  rw [if_neg hc]

lemma linePrefixAux_skip :
    ∀ (a rest : List Char) (fuel : Nat), (∀ c ∈ a, c ≠ '"') →
      linePrefixAux (a.length + fuel) (a ++ rest) = linePrefixAux fuel rest := by
  intro a
  induction a with
  | nil => intro rest fuel _; simp
  | cons c a2 ih =>
    intro rest fuel hq
    have hc : c ≠ '"' := hq c (by simp)
    have hlen : (c :: a2).length + fuel = (a2.length + fuel) + 1 := by
      simp
      omega
    rw [hlen]
    show linePrefixAux ((a2.length + fuel) + 1) (c :: (a2 ++ rest)) = _
    simp only [linePrefixAux, matchLinePrefixAt_nonquote hc]
    exact ih rest fuel (fun x hx => hq x (by simp [hx]))

/-- C6 counterexample: the prefix is extracted from the *first*
`"name": "version"` match of the whole line.  On a line holding two
dependency pairs — the first unprefixed — triggering the picker on the
second pair `"b": "^2.9.0"` (version span start 20, length 6) yields the
first pair's empty prefix, so the replacement range covers the `^` and
selecting `3.1.0` produces `"3.1.0"`: the range-operator prefix is
destroyed rather than preserved. -/
theorem replacement_prefix_first_match_cex :
    linePrefix "\"a\": \"1.2.3\", \"b\": \"^2.9.0\"" = ""
    ∧ applyEdit "\"a\": \"1.2.3\", \"b\": \"^2.9.0\""
        (cleanVersionStart 20 (linePrefix "\"a\": \"1.2.3\", \"b\": \"^2.9.0\""))
        (cleanVersionLength 6 (linePrefix "\"a\": \"1.2.3\", \"b\": \"^2.9.0\""))
        "3.1.0"
      = "\"a\": \"1.2.3\", \"b\": \"3.1.0\""
    ∧ ("\"a\": \"1.2.3\", \"b\": \"3.1.0\"" : String) ≠ "\"a\": \"1.2.3\", \"b\": \"^3.1.0\"" := by
  decide

/-- C6 amended: for a dependency whose pair is the first match of the line
regex — in particular on any line of the shape
`indent "name" ws : ws "version" rest` holding the dependency alone at the
front — the prefix the code extracts from the line equals the dependency's
own leading range-operator run, the replacement span starts at the version
span's start advanced by that prefix length with the span length minus the
prefix length, and applying a selected candidate preserves the prefix
characters and the surrounding quotes.  On a line with several pairs the
first pair's prefix is applied instead (see the counterexample). -/
theorem replacement_range_preserves_prefix :
    ∀ (ind name w1 w2 pfx bare cand post : String),
      (∀ c ∈ ind.data, c ≠ '"') →
      name ≠ "" →
      (∀ c ∈ name.data, c ≠ '"') →
      (∀ c ∈ w1.data, isJsWs c = true) →
      (∀ c ∈ w2.data, isJsWs c = true) →
      (∀ c ∈ pfx.data, isRangeChar c = true) →
      pfx ≠ "" →
      bare ≠ "" →
      (∀ c ∈ bare.data.take 1, isRangeChar c = false) →
      (∀ c ∈ bare.data, c ≠ '"') →
      linePrefix (ind ++ "\"" ++ name ++ "\"" ++ w1 ++ ":" ++ w2 ++ "\"" ++
          (pfx ++ bare) ++ "\"" ++ post) = pfx
      ∧ applyEdit
          (ind ++ "\"" ++ name ++ "\"" ++ w1 ++ ":" ++ w2 ++ "\"" ++
            (pfx ++ bare) ++ "\"" ++ post)
          (cleanVersionStart ((ind ++ "\"" ++ name ++ "\"" ++ w1 ++ ":" ++ w2).length + 1)
            (linePrefix (ind ++ "\"" ++ name ++ "\"" ++ w1 ++ ":" ++ w2 ++ "\"" ++
              (pfx ++ bare) ++ "\"" ++ post)))
          (cleanVersionLength (pfx ++ bare).length
            (linePrefix (ind ++ "\"" ++ name ++ "\"" ++ w1 ++ ":" ++ w2 ++ "\"" ++
              (pfx ++ bare) ++ "\"" ++ post)))
          cand
        = ind ++ "\"" ++ name ++ "\"" ++ w1 ++ ":" ++ w2 ++ "\"" ++ pfx ++ cand ++ "\"" ++ post := by
  intro ind name w1 w2 pfx bare cand post hind hnne hnq hw1 hw2 hrange hpne hbne hbhead hbq
  have hnd : name.data ≠ [] := fun h => hnne (by
    cases name
    simp at h
    simp [h])
  have hbdata : bare.data ≠ [] := fun h => hbne (by
    cases bare
    simp at h
    simp [h])
  obtain ⟨b0, brest, hb⟩ : ∃ b0 brest, bare.data = b0 :: brest := by
    cases hbd : bare.data with
    | nil => exact absurd hbd hbdata
    | cons x xs => exact ⟨x, xs, rfl⟩
  have hb0 : isRangeChar b0 = false := by
    have := hbhead b0 (by simp [hb])
    exact this
  have hpq : ∀ c ∈ pfx.data, c ≠ '"' := by
    intro c hc heq
    have h1 := hrange c hc
    rw [heq] at h1
    simp [isRangeChar] at h1
  have hvq : ∀ c ∈ pfx.data ++ bare.data, c ≠ '"' := by
    intro c hc
    rcases List.mem_append.mp hc with h | h
    · exact hpq c h
    · exact hbq c h
  have hvne : pfx.data ++ bare.data ≠ [] := by simp [hbdata]
  have hrun : (pfx.data ++ bare.data).takeWhile isRangeChar = pfx.data := by
    rw [takeWhile_append_all pfx.data bare.data hrange, hb]
    simp [List.takeWhile, hb0]
  have hm : matchLinePrefixAt ('"' :: (name.data ++ '"' :: (w1.data ++ ':' ::
      (w2.data ++ '"' :: ((pfx.data ++ bare.data) ++ '"' :: post.data))))) =
      some pfx.data := by
    have ha1 := afterLiteralQuote_spec name.data
      (w1.data ++ ':' :: (w2.data ++ '"' :: ((pfx.data ++ bare.data) ++ '"' :: post.data)))
      hnq hnd
    have he := expectColonQuote_spec w1.data w2.data
      ((pfx.data ++ bare.data) ++ '"' :: post.data) hw1 hw2
    have ha2 := afterLiteralQuote_spec (pfx.data ++ bare.data) post.data hvq hvne
    have hlt : ¬ pfx.data.length = (pfx.data ++ bare.data).length := by
      simp [hb]
    simp only [matchLinePrefixAt, ha1, he, ha2, hrun]
    rw [if_pos trivial, if_neg hlt]
  have hdata : (ind ++ "\"" ++ name ++ "\"" ++ w1 ++ ":" ++ w2 ++ "\"" ++
      (pfx ++ bare) ++ "\"" ++ post).data =
      ind.data ++ ('"' :: (name.data ++ '"' :: (w1.data ++ ':' ::
        (w2.data ++ '"' :: ((pfx.data ++ bare.data) ++ '"' :: post.data))))) := by
    simp [String.data_append]
  have hlp : linePrefix (ind ++ "\"" ++ name ++ "\"" ++ w1 ++ ":" ++ w2 ++ "\"" ++
      (pfx ++ bare) ++ "\"" ++ post) = pfx := by
    unfold linePrefix
    rw [hdata]
    have hfuel : (ind.data ++ ('"' :: (name.data ++ '"' :: (w1.data ++ ':' ::
        (w2.data ++ '"' :: ((pfx.data ++ bare.data) ++ '"' :: post.data)))))).length + 1 =
        ind.data.length + (('"' :: (name.data ++ '"' :: (w1.data ++ ':' ::
          (w2.data ++ '"' :: ((pfx.data ++ bare.data) ++ '"' :: post.data))))).length + 1) := by
      rw [List.length_append]
      omega
    rw [hfuel, linePrefixAux_skip ind.data _ _ hind]
    simp only [linePrefixAux, hm]
  refine ⟨hlp, ?_⟩
  rw [hlp]
  generalize (ind ++ "\"" ++ name ++ "\"" ++ w1 ++ ":" ++ w2 : String) = pre
  have hstart : cleanVersionStart (pre.length + 1) pfx =
      (pre.data ++ '"' :: pfx.data).length := by
    unfold cleanVersionStart
    rw [string_length_data pre, string_length_data pfx]
    simp [List.length_append, List.length_cons]
    omega
  have hlen : cleanVersionLength (pfx ++ bare).length pfx = bare.data.length := by
    unfold cleanVersionLength
    rw [String.length_append, string_length_data bare, string_length_data pfx]
    omega
  have hline : (pre ++ "\"" ++ (pfx ++ bare) ++ "\"" ++ post) =
      String.mk ((pre.data ++ '"' :: pfx.data) ++ bare.data ++ ('"' :: post.data)) := by
    have : (pre ++ "\"" ++ (pfx ++ bare) ++ "\"" ++ post).data =
        (pre.data ++ '"' :: pfx.data) ++ bare.data ++ ('"' :: post.data) := by
      simp [String.data_append]
    rw [← this]
  have hrhs : (pre ++ "\"" ++ pfx ++ cand ++ "\"" ++ post) =
      String.mk ((pre.data ++ '"' :: pfx.data) ++ cand.data ++ ('"' :: post.data)) := by
    have : (pre ++ "\"" ++ pfx ++ cand ++ "\"" ++ post).data =
        (pre.data ++ '"' :: pfx.data) ++ cand.data ++ ('"' :: post.data) := by
      simp [String.data_append]
    rw [← this]
  rw [hline, hstart, hlen, hrhs]
  exact applyEdit_exact (pre.data ++ '"' :: pfx.data) bare.data ('"' :: post.data) cand

/-- Witness for C6 (amended): on the single-pair line `  "pkg": "^2.9.0",`
the extracted prefix is `^` and selecting `"3.1.0"` produces
`  "pkg": "^3.1.0",`. -/
theorem replacement_range_preserves_prefix_witness :
    linePrefix ("  " ++ "\"" ++ "pkg" ++ "\"" ++ "" ++ ":" ++ " " ++ "\"" ++
        ("^" ++ "2.9.0") ++ "\"" ++ ",") = "^"
    ∧ applyEdit ("  " ++ "\"" ++ "pkg" ++ "\"" ++ "" ++ ":" ++ " " ++ "\"" ++
          ("^" ++ "2.9.0") ++ "\"" ++ ",")
        (cleanVersionStart ((("  " ++ "\"" ++ "pkg" ++ "\"" ++ "" ++ ":" ++ " " : String)).length + 1)
          (linePrefix ("  " ++ "\"" ++ "pkg" ++ "\"" ++ "" ++ ":" ++ " " ++ "\"" ++
            ("^" ++ "2.9.0") ++ "\"" ++ ",")))
        (cleanVersionLength (("^" ++ "2.9.0" : String)).length
          (linePrefix ("  " ++ "\"" ++ "pkg" ++ "\"" ++ "" ++ ":" ++ " " ++ "\"" ++
            ("^" ++ "2.9.0") ++ "\"" ++ ",")))
        "3.1.0"
      = "  " ++ "\"" ++ "pkg" ++ "\"" ++ "" ++ ":" ++ " " ++ "\"" ++ "^" ++ "3.1.0" ++ "\"" ++ "," :=
  replacement_range_preserves_prefix "  " "pkg" "" " " "^" "2.9.0" "3.1.0" ","
    (by decide) (by decide) (by decide) (by decide) (by decide) (by decide)
    (by decide) (by decide) (by decide) (by decide)
